import Mathlib

/-!
Verification of the dual-series band-segmentation engine of the
`route-chart` repository.

The canonical pipeline is `PairHighlighter` in `src/HighlightAreas.tsx`
(the `HighlightAreas` default export of the same file, and the copy in
`src/unnamed/part_002`, are near-identical variants).  A second variant of
`PairHighlighter` lives at the bottom of `src/App.tsx`; it interpolates the
A series, forward-fills the B series, and has no guard against absent
scale functions.

Modelling conventions:
* JavaScript numbers are modelled as rationals (`ℚ`); floating-point
  rounding is out of scope.  A value that may be non-finite (`NaN`/`±∞`),
  such as the output of an externally supplied scale function, is
  modelled as `Option ℚ` with `none` standing for a non-finite number,
  so that the source's `Number.isFinite` checks become `isSome` checks.
* A raw row value that is missing or not a number (the source tests
  `typeof v === "number"`) is modelled as `none`.
* Timestamps are opaque keys for the pipeline; they are modelled as `ℚ`
  and handed to the x-scale unchanged.
* The externally supplied scale functions are `Option (ℚ → Option ℚ)`:
  the outer `Option` models an absent `xAxis?.scale` / `yAxis?.scale`.
* Code that can throw (calling an absent scale function) is modelled
  with `Except Unit`, `Except.error ()` standing for a thrown
  `TypeError`.
-/

namespace RouteChart

/-- One input row, restricted to the two metric keys (`aKey`, `bKey`)
selected by a pipeline instantiation.  `a?`/`b?` are `row[aKey]` /
`row[bKey]`; `none` models a missing or non-numeric value. -/
structure Row where
  timestampUk : ℚ
  a? : Option ℚ
  b? : Option ℚ
deriving DecidableEq, Repr

/-- The `ConnectedPoint` of `src/HighlightAreas.tsx`: a sample at which both
series resolved. -/
structure ConnectedPoint where
  timestampUk : ℚ
  a : ℚ
  b : ℚ
deriving DecidableEq, Repr

/-- Per-row outcome of one iteration of the `connected` loop of
`PairHighlighter` (`src/HighlightAreas.tsx` lines 68-89): the resolved
`a` and `b` (which are also the updated `lastA`/`lastB`, since the loop
stores the raw value back into `lastA`/`lastB` exactly when it is
present) and the point pushed to `out`, if any. -/
structure Resolution where
  aRes : Option ℚ
  bRes : Option ℚ
  emitted : Option ConnectedPoint
deriving DecidableEq, Repr

/-- The loop body's emission: a point is pushed only when both resolved
values are available. -/
def emitPoint (ts : ℚ) (a b : Option ℚ) : Option ConnectedPoint :=
  match a, b with
  | some av, some bv => some ⟨ts, av, bv⟩
  | _, _ => none

/-- The `connected` loop of `PairHighlighter` (`src/HighlightAreas.tsx`
lines 68-89), recorded per input row.  Both series are forward-filled
("always connectNulls"): a missing value is replaced by the last known
value, and a point is emitted only when both are available. -/
def connectedEach (lastA lastB : Option ℚ) : List Row → List Resolution
  | [] => []
  | r :: rest =>
    let a : Option ℚ := match r.a? with | some v => some v | none => lastA
    let b : Option ℚ := match r.b? with | some v => some v | none => lastB
    ⟨a, b, emitPoint r.timestampUk a b⟩ :: connectedEach a b rest

/-- The `connected` array: the points actually pushed to `out`. -/
def connected (data : List Row) : List ConnectedPoint :=
  (connectedEach none none data).filterMap (·.emitted)

/-- The `Seg` of `src/HighlightAreas.tsx`: one render-space segment between
two consecutive connected points, tagged with the dominance sign of each
endpoint. -/
structure Seg where
  x0 : ℚ
  x1 : ℚ
  yA0 : ℚ
  yA1 : ℚ
  yB0 : ℚ
  yB1 : ℚ
  above0 : Bool
  above1 : Bool
deriving DecidableEq, Repr

/-- Body of the `segments` loop of `PairHighlighter`
(`src/HighlightAreas.tsx` lines 109-126) for one adjacent pair: project
both endpoints, tag dominance as the strict comparison `a > b`, and drop
the segment (return `none`) unless all six projected coordinates are
finite. -/
def mkSeg (sx sy : ℚ → Option ℚ) (p0 p1 : ConnectedPoint) : Option Seg :=
  match sx p0.timestampUk, sx p1.timestampUk,
        sy p0.a, sy p1.a, sy p0.b, sy p1.b with
  | some x0, some x1, some yA0, some yA1, some yB0, some yB1 =>
    some ⟨x0, x1, yA0, yA1, yB0, yB1, decide (p0.a > p0.b), decide (p1.a > p1.b)⟩
  | _, _, _, _, _, _ => none

/-- The `segments` loop over consecutive pairs of connected points. -/
def buildSegments (sx sy : ℚ → Option ℚ) : List ConnectedPoint → List Seg
  | p0 :: p1 :: rest =>
    match mkSeg sx sy p0 p1 with
    | some s => s :: buildSegments sx sy (p1 :: rest)
    | none => buildSegments sx sy (p1 :: rest)
  | _ => []

/-- A crossing returned by `splitAtCrossing`.  The canonical variant
returns `{ x, yA, yB }`; the `src/unnamed/part_002` variant additionally
returns the parametric position `t`, which we keep. -/
structure Cross where
  t : ℚ
  x : ℚ
  yA : ℚ
  yB : ℚ
deriving DecidableEq, Repr

/-- The `splitAtCrossing` (`src/HighlightAreas.tsx` lines 134-149): find the
in-segment point where `A - B` changes sign, by linear interpolation in
render space.  `diff` is the vertical separation `yB - yA` at each
endpoint; no crossing is reported when `diff0 == diff1` (parallel) or
when the solved `t` is not strictly inside `(0, 1)`. -/
def splitAtCrossing (s : Seg) : Option Cross :=
  let diff0 := s.yB0 - s.yA0
  let diff1 := s.yB1 - s.yA1
  let denom := diff0 - diff1
  if denom = 0 then none
  else
    let t := diff0 / denom
    if t ≤ 0 ∨ t ≥ 1 then none
    else
      some ⟨t,
            s.x0 + t * (s.x1 - s.x0),
            s.yA0 + t * (s.yA1 - s.yA0),
            s.yB0 + t * (s.yB1 - s.yB0)⟩

/-- The `StripPoint`: one boundary point of a strip. -/
structure StripPoint where
  x : ℚ
  yTop : ℚ
  yBot : ℚ
deriving DecidableEq, Repr

/-- A strip: an ordered list of boundary points of one dominance sign. -/
abbrev Strip := List StripPoint

/-- The mutable state of the strip-extraction loop
(`src/HighlightAreas.tsx` lines 153-226): the two finished collections
`above`/`below`, the in-progress point list `current`, and its sign
`currentIsAbove` (`none` when no strip is open). -/
structure ExtState where
  above : List Strip
  below : List Strip
  current : Strip
  currentIsAbove : Option Bool
deriving DecidableEq, Repr

/-- The empty initial extraction state. -/
def initExt : ExtState := ⟨[], [], [], none⟩

/-- The `flush` (`src/HighlightAreas.tsx` lines 160-169): move `current`
into the collection named by `currentIsAbove`, discarding it silently
when no strip is open or it holds fewer than 2 points; then reset. -/
def flush (st : ExtState) : ExtState :=
  match st.currentIsAbove with
  | none => { st with current := [], currentIsAbove := none }
  | some isAb =>
    if st.current.length < 2 then
      { st with current := [], currentIsAbove := none }
    else if isAb then
      { st with above := st.above ++ [st.current], current := [], currentIsAbove := none }
    else
      { st with below := st.below ++ [st.current], current := [], currentIsAbove := none }

/-- The `pushPoint` (`src/HighlightAreas.tsx` lines 171-184): start a strip
if none is open, flush-and-restart on a sign change, else append. -/
def pushPoint (isAb : Bool) (p : StripPoint) (st : ExtState) : ExtState :=
  match st.currentIsAbove with
  | none => { st with currentIsAbove := some isAb, current := [p] }
  | some cur =>
    if cur ≠ isAb then
      let st' := flush st
      { st' with currentIsAbove := some isAb, current := [p] }
    else
      { st with current := st.current ++ [p] }

/-- First boundary point of a segment: top/bottom assigned by which
series dominates at the segment's first endpoint (`top0`/`bot0`,
`src/HighlightAreas.tsx` lines 192-193). -/
def segStart (s : Seg) : StripPoint :=
  ⟨s.x0, if s.above0 then s.yA0 else s.yB0, if s.above0 then s.yB0 else s.yA0⟩

/-- Second boundary point of a segment (`top1`/`bot1`, lines 194-195). -/
def segEnd (s : Seg) : StripPoint :=
  ⟨s.x1, if s.above1 then s.yA1 else s.yB1, if s.above1 then s.yB1 else s.yA1⟩

/-- Body of the strip-extraction loop for one segment
(`src/HighlightAreas.tsx` lines 186-222).  Same-sign segments extend the
current run; a sign change with a solvable crossing closes the run at
the crossing (where `yTop = yBot = cross.yA`) and opens the opposite
run there; a sign change with no solvable crossing flushes, emits the
segment's two endpoints as a 2-point strip of the starting sign, and
flushes again. -/
def processSeg (st : ExtState) (s : Seg) : ExtState :=
  if s.above0 = s.above1 then
    let st1 := if st.current.length = 0 then pushPoint s.above0 (segStart s) st else st
    pushPoint s.above0 (segEnd s) st1
  else
    match splitAtCrossing s with
    | none =>
      flush (pushPoint s.above0 (segEnd s) (pushPoint s.above0 (segStart s) (flush st)))
    | some c =>
      let cp : StripPoint := ⟨c.x, c.yA, c.yA⟩
      let st1 := if st.current.length = 0 then pushPoint s.above0 (segStart s) st else st
      let st2 := pushPoint s.above0 cp st1
      let st3 := flush st2
      let st4 := pushPoint s.above1 cp st3
      pushPoint s.above1 (segEnd s) st4

/-- The whole strip-extraction loop: fold over the segments, then the
final `flush`; returns (`aboveStrips`, `belowStrips`). -/
def extractStrips (segs : List Seg) : List Strip × List Strip :=
  let fin := flush (segs.foldl processSeg initExt)
  (fin.above, fin.below)

/-- The full canonical pipeline `PairHighlighter`
(`src/HighlightAreas.tsx` lines 38-259), from its guards (lines 56-58)
to the two strip collections it renders.  `sx?`/`sy?` are the externally
injected `xAxis?.scale` / `yAxis?.scale` (absent = `none`); a `null`
render is the empty pair of collections. -/
def pairHighlighter (enabled : Bool) (sx? sy? : Option (ℚ → Option ℚ))
    (data : List Row) : List Strip × List Strip :=
  if ¬ enabled then ([], [])
  else
    match sx?, sy? with
    | some sx, some sy =>
      if data.length < 2 then ([], [])
      else
        let conn := connected data
        if conn.length < 2 then ([], [])
        else
          let segs := buildSegments sx sy conn
          if segs.length = 0 then ([], [])
          else extractStrips segs
    | _, _ => ([], [])

/-!
The `PairHighlighter` variant at the bottom of `src/App.tsx`
(lines 405-647): the A series is interpolated across gaps, the B series
is forward-filled, and there is no guard against an absent scale — the
`connected` `useMemo` applies `xAxis?.scale` (cast to a function) to
every row, so with an absent x-scale and non-empty `data` the render
throws a `TypeError`.
-/

/-- Whether index `j` of the per-row raw A values holds a number
(`typeof aVals[j] === "number"`). -/
def validAt (aVals : List (Option ℚ)) (j : ℕ) : Bool :=
  match aVals.get? j with
  | some (some _) => true
  | _ => false

/-- The value of the loop variable `prevA` when the `src/App.tsx`
`connected` loop reaches index `i`: the largest valid index strictly
before `i` (`-1`, i.e. `none`, when there is none). -/
def prevValidIdx (aVals : List (Option ℚ)) : ℕ → Option ℕ
  | 0 => none
  | i + 1 => if validAt aVals i then some i else prevValidIdx aVals i

/-- The `nextValidA[i]` of `src/App.tsx` lines 438-443: the smallest valid
index at or after `i` (`-1`, i.e. `none`, when there is none). -/
def nextValidIdx (aVals : List (Option ℚ)) (i : ℕ) : Option ℕ :=
  (List.range aVals.length).find? (fun j => decide (i ≤ j) && validAt aVals j)

/-- The `aResolved` at index `i` of the `src/App.tsx` `connected` loop
(lines 449-472): a present raw value is used unchanged; otherwise the
value is linearly interpolated between the nearest valid neighbours
`left` and `right` in pixel-x space, skipped when either neighbour is
missing, when a needed pixel x is non-finite, or when the denominator
`xR - xL` is zero.  `xs` are the pre-computed pixel x positions. -/
def resolveA (xs : List (Option ℚ)) (aVals : List (Option ℚ)) (i : ℕ) : Option ℚ :=
  match aVals.get? i with
  | some (some v) => some v
  | _ =>
    match prevValidIdx aVals i, nextValidIdx aVals i with
    | some l, some r =>
      if r ≠ l then
        match (xs.get? l).join, (xs.get? r).join, (xs.get? i).join,
              (aVals.get? l).join, (aVals.get? r).join with
        | some xL, some xR, some xI, some aL, some aR =>
          let denom := xR - xL
          if denom ≠ 0 then some (aL + ((xI - xL) / denom) * (aR - aL))
          else none
        | _, _, _, _, _ => none
      else none
    | _, _ => none

/-- The `bResolved` at index `i` of the `src/App.tsx` `connected` loop
(lines 474-477): forward-fill — the raw value if present, else the most
recent raw value at an earlier index (`lastB`), else `none`. -/
def ffillB (rows : List Row) : ℕ → Option ℚ
  | 0 =>
    match rows.get? 0 with
    | some r => r.b?
    | none => none
  | i + 1 =>
    match rows.get? (i + 1) with
    | some r =>
      match r.b? with
      | some v => some v
      | none => ffillB rows i
    | none => none

/-- The `connected` `useMemo` of the `src/App.tsx` `PairHighlighter`
(lines 424-485).  With an absent x-scale, the loop body's very first
statement `xs[i] = sx(data[i].timestampUk)` calls `undefined` and
throws, modelled as `Except.error ()`; with empty `data` the loop body
never runs and the result is the empty list. -/
def appConnected (sx? : Option (ℚ → Option ℚ)) (rows : List Row) :
    Except Unit (List ConnectedPoint) :=
  match sx? with
  | none => if rows.isEmpty then .ok [] else .error ()
  | some sx =>
    let xs := rows.map (fun r => sx r.timestampUk)
    let aVals := rows.map (·.a?)
    .ok ((List.range rows.length).filterMap (fun i =>
      match resolveA xs aVals i, ffillB rows i, rows.get? i with
      | some a, some b, some r => some ⟨r.timestampUk, a, b⟩
      | _, _, _ => none))

/-- The `segments` `useMemo` of the `src/App.tsx` `PairHighlighter`
(lines 498-523): it re-applies both scales to each consecutive pair of
connected points, so with fewer than 2 connected points no scale is
called, while with 2 or more an absent scale throws. -/
def appSegments (sx? sy? : Option (ℚ → Option ℚ)) (conn : List ConnectedPoint) :
    Except Unit (List Seg) :=
  if conn.length < 2 then .ok []
  else
    match sx?, sy? with
    | some sx, some sy => .ok (buildSegments sx sy conn)
    | _, _ => .error ()

/-- The full `src/App.tsx` `PairHighlighter` (lines 405-647): connected
points, segments, then the same strip extraction as the canonical
variant; it renders unconditionally (no `enabled`, scale, or row-count
guard). -/
def appPairHighlighter (sx? sy? : Option (ℚ → Option ℚ)) (rows : List Row) :
    Except Unit (List Strip × List Strip) := do
  let conn ← appConnected sx? rows
  let segs ← appSegments sx? sy? conn
  pure (extractStrips segs)

/-!
The external weekend-deduplication pass: `deduplicateWeekendData` in
`src/App.tsx` (lines 205-233; the identical `deduplicateWeekends` is in
`src/unnamed/part_000` and `src/unnamed/part_001`).  The calendar
helpers below model the `dayjs` calls it makes: strict parsing of
`YYYY-MM-DD HH:mm`, `.day()` (0 = Sunday .. 6 = Saturday), `.isoWeek()`
and `.isoWeekYear()` (ISO-8601 week numbering), on the proleptic
Gregorian calendar. -/

/-- A parsed `YYYY-MM-DD HH:mm` timestamp. -/
structure DateTime where
  year : ℕ
  month : ℕ
  day : ℕ
  hour : ℕ
  minute : ℕ
deriving DecidableEq, Repr

/-- Gregorian leap year. -/
def isLeap (y : ℕ) : Bool :=
  (y % 4 == 0 && y % 100 != 0) || y % 400 == 0

/-- Days in a month of the Gregorian calendar. -/
def daysInMonth (y m : ℕ) : ℕ :=
  if m = 2 then (if isLeap y then 29 else 28)
  else if m = 4 ∨ m = 6 ∨ m = 9 ∨ m = 11 then 30
  else 31

/-- Days in the years strictly before year `y` (counting from year 1). -/
def daysBeforeYear (y : ℕ) : ℕ :=
  365 * (y - 1) + (y - 1) / 4 + (y - 1) / 400 - (y - 1) / 100

/-- One-based ordinal of the day within its year. -/
def ordinalDay (y m d : ℕ) : ℕ :=
  (((List.range (m - 1)).map (fun k => daysInMonth y (k + 1))).sum) + d

/-- Day number counted from 0001-01-01 = day 1 (proleptic Gregorian). -/
def rataDie (y m d : ℕ) : ℕ :=
  daysBeforeYear y + ordinalDay y m d

/-- The `dayjs(...).day()`: day of week, 0 = Sunday .. 6 = Saturday.
0001-01-01 was a Monday, so the day number mod 7 (Monday = 1) matches. -/
def dayOfWeek (y m d : ℕ) : ℕ :=
  rataDie y m d % 7

/-- ISO weekday, Monday = 1 .. Sunday = 7. -/
def isoDow (y m d : ℕ) : ℕ :=
  (rataDie y m d - 1) % 7 + 1

/-- Day of week of 31 December of year `y`, used by the ISO
week-count rule. -/
def yearEndDow (y : ℕ) : ℕ :=
  (y + y / 4 + y / 400 - y / 100) % 7

/-- Number of ISO weeks in ISO year `y` (52 or 53). -/
def isoWeeksInYear (y : ℕ) : ℕ :=
  if yearEndDow y = 4 ∨ yearEndDow (y - 1) = 3 then 53 else 52

/-- The `dayjs(...).isoWeekYear()` and `.isoWeek()` as a pair, by the
standard ordinal-date formula. -/
def isoWeekPair (y m d : ℕ) : ℕ × ℕ :=
  let w := (ordinalDay y m d + 10 - isoDow y m d) / 7
  if w = 0 then (y - 1, isoWeeksInYear (y - 1))
  else if w = 53 ∧ isoWeeksInYear y = 52 then (y + 1, 1)
  else (y, w)

/-- Zero-pad a week number to two digits (`String(...).padStart(2, "0")`). -/
def pad2 (n : ℕ) : String :=
  if n < 10 then ("0" ++ toString n) else toString n

/-- The `weekId` string of `deduplicateWeekendData`:
`${isoWeekYear()}-W${String(isoWeek()).padStart(2, "0")}`. -/
def weekIdStr (y m d : ℕ) : String :=
  let p := isoWeekPair y m d
  toString p.1 ++ "-W" ++ pad2 p.2

/-- Numeric value of a decimal digit character. -/
def digitVal (c : Char) : Option ℕ :=
  if c.isDigit then some (c.toNat - 48) else none

/-- Strict `dayjs(s, "YYYY-MM-DD HH:mm", true)`: exactly 16 characters
in that shape, denoting a real calendar date and time of day; anything
else is invalid (`none`). -/
def parseTs (s : String) : Option DateTime :=
  match s.data with
  | [c1, c2, c3, c4, h1, c5, c6, h2, c7, c8, sp, c9, c10, co, c11, c12] =>
    match digitVal c1, digitVal c2, digitVal c3, digitVal c4,
          digitVal c5, digitVal c6, digitVal c7, digitVal c8,
          digitVal c9, digitVal c10, digitVal c11, digitVal c12 with
    | some a, some b, some c, some d, some e, some f,
      some g, some h, some i, some j, some k, some l =>
      if h1 = '-' ∧ h2 = '-' ∧ sp = ' ' ∧ co = ':' then
        let y := 1000 * a + 100 * b + 10 * c + d
        let mo := 10 * e + f
        let dd := 10 * g + h
        let hh := 10 * i + j
        let mi := 10 * k + l
        if 1 ≤ mo ∧ mo ≤ 12 ∧ 1 ≤ dd ∧ dd ≤ daysInMonth y mo ∧ hh ≤ 23 ∧ mi ≤ 59 then
          some ⟨y, mo, dd, hh, mi⟩
        else none
      else none
    | _, _, _, _, _, _, _, _, _, _, _, _ => none
  | _ => none

/-- A raw-row field value: a JavaScript number or anything else,
stringified by the dedup key as `typeof v === "number" ? String(v) :
String(v).trim()`. -/
inductive FVal where
  | num (q : ℚ)
  | str (s : String)
deriving DecidableEq, Repr

/-- ASCII whitespace, for `String.prototype.trim`. -/
def isWsp (c : Char) : Bool :=
  c = ' ' ∨ c = '\t' ∨ c = '\n' ∨ c = '\r'

/-- The `String(v).trim()`: strip leading and trailing whitespace. -/
def trimStr (s : String) : String :=
  ⟨((s.data.dropWhile isWsp).reverse.dropWhile isWsp).reverse⟩

/-- The stringification used inside `baseKey`. -/
def FVal.render : FVal → String
  | .num q => toString q
  | .str s => trimStr s

/-- A raw input row as seen by the dedup pass: its `timestampUk` plus
its remaining fields as a key-value list. -/
structure Row9 where
  timestampUk : String
  rest : List (String × FVal)
deriving DecidableEq, Repr

/-- The `excluded` set of `deduplicateWeekendData`. -/
def excludedKeys : List String :=
  ["timestampUk", "timestampUtc", "counter", "snapshotId"]

/-- Lexicographic comparison of character lists by code point, as
JavaScript's default string ordering used by `Object.keys(...).sort()`. -/
def charListLe : List Char → List Char → Bool
  | [], _ => true
  | _ :: _, [] => false
  | c :: cs, d :: ds =>
    if c.toNat < d.toNat then true
    else if d.toNat < c.toNat then false
    else charListLe cs ds

/-- JavaScript string `<=`. -/
def strLe (a b : String) : Bool :=
  charListLe a.data b.data

/-- Insert into a key-sorted field list. -/
def insertByKey (kv : String × FVal) : List (String × FVal) → List (String × FVal)
  | [] => [kv]
  | kv2 :: rest =>
    if strLe kv.1 kv2.1 then kv :: kv2 :: rest
    else kv2 :: insertByKey kv rest

/-- Sort a field list by key (`Object.keys(row).sort()`). -/
def sortByKey : List (String × FVal) → List (String × FVal)
  | [] => []
  | kv :: rest => insertByKey kv (sortByKey rest)

/-- The `baseKey` of `deduplicateWeekendData`: the non-excluded fields,
sorted by key, rendered as `k=v` and joined with `|`. -/
def baseKey (r : Row9) : String :=
  let kept := r.rest.filter (fun kv => ¬ excludedKeys.contains kv.1)
  String.intercalate ("|") ((sortByKey kept).map (fun kv => kv.1 ++ "=" ++ kv.2.render))

/-- The dedup key of a row, when the row is subject to deduplication at
all: `some (weekId ++ "|" ++ baseKey)` when the timestamp strict-parses
and falls on Saturday or Sunday, `none` (keep unconditionally) otherwise. -/
def weekendKey (r : Row9) : Option String :=
  match parseTs r.timestampUk with
  | none => none
  | some dt =>
    let dow := dayOfWeek dt.year dt.month dt.day
    if dow = 0 ∨ dow = 6 then
      some (weekIdStr dt.year dt.month dt.day ++ "|" ++ baseKey r)
    else none

/-- The `filter` body of `deduplicateWeekendData` with its `seen` set:
a row with no weekend key is kept; a weekend row is dropped when its
key was already seen, else kept and its key recorded. -/
def dedupGo (seen : List String) : List Row9 → List Row9
  | [] => []
  | r :: rest =>
    match weekendKey r with
    | none => r :: dedupGo seen rest
    | some key =>
      if seen.contains key then dedupGo seen rest
      else r :: dedupGo (key :: seen) rest

/-- The `deduplicateWeekendData` of `src/App.tsx` lines 205-233. -/
def deduplicateWeekendData (rows : List Row9) : List Row9 :=
  dedupGo [] rows

/-- Modelled from the spec (§6): the deduplication pass described
declaratively — a row is dropped exactly when it has a weekend key and
some earlier row of the input (kept or not) has the same weekend key,
i.e. is a weekend row of the same ISO week whose non-excluded fields
stringify identically.  `prevKeys` collects the weekend keys of all
earlier rows. -/
def dedupSpecGo (prevKeys : List String) : List Row9 → List Row9
  | [] => []
  | r :: rest =>
    match weekendKey r with
    | none => r :: dedupSpecGo prevKeys rest
    | some key =>
      if prevKeys.contains key then dedupSpecGo (key :: prevKeys) rest
      else r :: dedupSpecGo (key :: prevKeys) rest

/-- The declarative deduplication pass, started with no earlier rows. -/
def dedupWeekendSpec (rows : List Row9) : List Row9 :=
  dedupSpecGo [] rows

/-!
Route combination: `combineRouteIntoMap` and `combineTwoRoutes` of
`src/App.tsx` (lines 239-268; a near-identical copy is in
`src/unnamed/part_000` lines 121-152).  The JavaScript `Map` keyed by
`timestampUk` is modelled as an insertion-ordered association list; a
`CombinedRow`'s optional metric properties are modelled as a key-value
list written by `setMetric`.  `Array.prototype.sort` with the
`dayjs(...).valueOf()` difference comparator is modelled as a stable
merge sort by an externally supplied total numeric timestamp projection
`valueOf` (the epoch-milliseconds value `dayjs` assigns to a parseable
timestamp). -/

/-- An input cost reading (`HistoryPoint` restricted to the fields
`combineRouteIntoMap` reads from `route.costs`). -/
structure CostReading where
  timestampUk : String
  tenor : String
  costCalculationType : String
  avg : ℚ
deriving DecidableEq, Repr

/-- An input spread reading (the fields read from `route.spreads`). -/
structure SpreadReading where
  timestampUk : String
  tenor : String
  source : String
  avg : ℚ
deriving DecidableEq, Repr

/-- The `RouteData` of `src/types.ts`. -/
structure RouteData where
  costs : List CostReading
  spreads : List SpreadReading
deriving DecidableEq, Repr

/-- A `CombinedRow`: `timestampUk`, `tenor`, and the optional metric
properties (`cost_all_r1`, `spread_acp_r2`, ...) as a key-value list. -/
structure CombinedRow where
  timestampUk : String
  tenor : String
  metrics : List (String × ℚ)
deriving DecidableEq, Repr

/-- The `metricKey` of `src/App.tsx` line 235: `${base}_${routeKey}`. -/
def metricKey (base routeKey : String) : String :=
  base ++ "_" ++ routeKey

/-- JavaScript property assignment `row[key] = avg`: overwrite in place
when present, append otherwise. -/
def setMetric (k : String) (v : ℚ) (r : CombinedRow) : CombinedRow :=
  if r.metrics.any (fun kv => kv.1 == k) then
    { r with metrics := r.metrics.map (fun kv => if kv.1 == k then (k, v) else kv) }
  else
    { r with metrics := r.metrics ++ [(k, v)] }

/-- The combination map: insertion-ordered association list from
`timestampUk` to the combined row. -/
abbrev RowMap := List (String × CombinedRow)

/-- The `ensure` of `combineRouteIntoMap` (line 240): create the entry for a
timestamp if it is not yet present. -/
def mapEnsure (m : RowMap) (ts tenor : String) : RowMap :=
  if m.any (fun kv => kv.1 == ts) then m
  else m ++ [(ts, ⟨ts, tenor, []⟩)]

/-- Mutation of the row stored under key `ts`. -/
def mapUpdate (m : RowMap) (ts : String) (f : CombinedRow → CombinedRow) : RowMap :=
  m.map (fun kv => if kv.1 == ts then (kv.1, f kv.2) else kv)

/-- One iteration of the cost loop of `combineRouteIntoMap`
(lines 245-251): ensure the row, then write `cost_all`/`cost_fixed`/
`cost_variable` for the route depending on the lower-cased
`costCalculationType`. -/
def applyCost (routeKey : String) (m : RowMap) (c : CostReading) : RowMap :=
  let m1 := mapEnsure m c.timestampUk c.tenor
  let t := c.costCalculationType.toLower
  let m2 := if t == "all" then
      mapUpdate m1 c.timestampUk (setMetric (metricKey ("cost_all") routeKey) c.avg)
    else m1
  let m3 := if t == "fixed" then
      mapUpdate m2 c.timestampUk (setMetric (metricKey ("cost_fixed") routeKey) c.avg)
    else m2
  if t == "variable" then
    mapUpdate m3 c.timestampUk (setMetric (metricKey ("cost_variable") routeKey) c.avg)
  else m3

/-- One iteration of the spread loop of `combineRouteIntoMap`
(lines 253-257). -/
def applySpread (routeKey : String) (m : RowMap) (s : SpreadReading) : RowMap :=
  let m1 := mapEnsure m s.timestampUk s.tenor
  let src := s.source.toLower
  let m2 := if src == "acp" then
      mapUpdate m1 s.timestampUk (setMetric (metricKey ("spread_acp") routeKey) s.avg)
    else m1
  if src == "trayport" then
    mapUpdate m2 s.timestampUk (setMetric (metricKey ("spread_trayport") routeKey) s.avg)
  else m2

/-- The `combineRouteIntoMap` (`src/App.tsx` lines 239-258): fold the cost
readings, then the spread readings, into the shared map. -/
def combineRouteIntoMap (route : RouteData) (routeKey : String) (m : RowMap) : RowMap :=
  route.spreads.foldl (applySpread routeKey) (route.costs.foldl (applyCost routeKey) m)

/-- The map built by `combineTwoRoutes` before sorting: route 1 into an
empty map, then optionally route 2 into the same map. -/
def combinedMap (route1 : RouteData) (route2 : Option RouteData) : RowMap :=
  match route2 with
  | some r2 => combineRouteIntoMap r2 ("r2") (combineRouteIntoMap route1 ("r1") [])
  | none => combineRouteIntoMap route1 ("r1") []

/-- The `combineTwoRoutes` (`src/App.tsx` lines 260-268): the combined
map's values, sorted by the numeric timestamp value
(`dayjs(...).valueOf()` modelled by the external total projection
`valueOf`; `Array.prototype.sort` with a consistent comparator is
modelled as a stable merge sort). -/
def combineTwoRoutes (valueOf : String → ℚ) (route1 : RouteData)
    (route2 : Option RouteData) : List CombinedRow :=
  ((combinedMap route1 route2).map Prod.snd).mergeSort
    (fun a b => decide (valueOf a.timestampUk ≤ valueOf b.timestampUk))

/-! Concrete inputs used by the claims below. -/

/-- One row with both values present, for exercising the unguarded
`src/App.tsx` variant with an absent x-scale. -/
def c1data : List Row := [⟨0, some 1, some 0⟩]

/-- Scenario 2 input: A = [1, -1], B = [0, 0] at x = [0, 1]. -/
def scenario2Data : List Row := [⟨0, some 1, some 0⟩, ⟨1, some (-1), some 0⟩]

/-- The single segment Scenario 2 produces under identity scales. -/
def c3seg : Seg := ⟨0, 1, 1, -1, 0, 0, true, false⟩

/-- The crossing of that segment: t = 1/2, x = 1/2, y = 0. -/
def c3cross : Cross := ⟨1/2, 1/2, 0, 0⟩

/-- C1: the spec says an absent scale function short-circuits every
pipeline instantiation to an empty region list with no exception.  The
guarded canonical variant (`src/HighlightAreas.tsx` lines 56-58) does
return the empty result, but the `src/App.tsx` `PairHighlighter`
variant has no such guard: with an absent x-scale and non-empty data
its `connected` loop calls the absent scale and throws a `TypeError`
(modelled as `Except.error ()`). -/
theorem appPairHighlighter_missing_scale_throws :
    appPairHighlighter none (some fun v => some v) c1data = Except.error () ∧
    pairHighlighter true none (some fun v => some v) c1data = ([], []) := by
  constructor <;> rfl

/-- C2: on A = [1, -1], B = [0, 0] at x = [0, 1] with identity scales,
the pipeline emits exactly one above strip spanning [0, 1/2] and one
below strip spanning [1/2, 1]; the segment's crossing solves at t = 1/2,
x = 1/2, y = 0. -/
theorem scenario2_one_above_one_below :
    pairHighlighter true (some fun t => some t) (some fun v => some v) scenario2Data
      = ([[⟨0, 1, 0⟩, ⟨1/2, 0, 0⟩]], [[⟨1/2, 0, 0⟩, ⟨1, 0, -1⟩]]) ∧
    buildSegments (fun t => some t) (fun v => some v) (connected scenario2Data)
      = [c3seg] ∧
    splitAtCrossing c3seg = some c3cross := by
  refine ⟨?_, by rfl, ?_⟩ <;>
    norm_num [pairHighlighter, scenario2Data, connected, connectedEach, buildSegments,
      mkSeg, splitAtCrossing, extractStrips, processSeg, pushPoint, flush, segStart,
      segEnd, initExt, c3seg, c3cross, emitPoint, List.filterMap_cons, List.filterMap_nil]

/-- C3: whenever `splitAtCrossing` succeeds, the returned parametric
position is `diff0 / (diff0 - diff1)` with `diff = yB - yA` at each
endpoint and lies strictly inside (0, 1); when `diff0 = diff1`
(parallel in render space) no crossing is returned. -/
theorem splitAtCrossing_strict_interior (s : Seg) :
    (s.yB0 - s.yA0 = s.yB1 - s.yA1 → splitAtCrossing s = none) ∧
    ∀ c : Cross, splitAtCrossing s = some c →
      0 < c.t ∧ c.t < 1 ∧
      c.t = (s.yB0 - s.yA0) / ((s.yB0 - s.yA0) - (s.yB1 - s.yA1)) := by
  constructor
  · intro h
    simp only [splitAtCrossing]
    rw [if_pos (sub_eq_zero_of_eq h)]
  · intro c hc
    simp only [splitAtCrossing] at hc
    by_cases hd : s.yB0 - s.yA0 - (s.yB1 - s.yA1) = 0
    · rw [if_pos hd] at hc
      exact absurd hc (by simp)
    · rw [if_neg hd] at hc
      by_cases ht : (s.yB0 - s.yA0) / (s.yB0 - s.yA0 - (s.yB1 - s.yA1)) ≤ 0 ∨
          (s.yB0 - s.yA0) / (s.yB0 - s.yA0 - (s.yB1 - s.yA1)) ≥ 1
      · rw [if_pos ht] at hc
        exact absurd hc (by simp)
      · rw [if_neg ht] at hc
        push_neg at ht
        injection hc with hc
        subst hc
        exact ⟨ht.1, ht.2, rfl⟩

/-- C3 witness: the Scenario 2 segment crosses at t = 1/2, which is
strictly interior and equals diff0 / (diff0 - diff1). -/
theorem splitAtCrossing_strict_interior_witness :
    0 < c3cross.t ∧ c3cross.t < 1 ∧
    c3cross.t = (c3seg.yB0 - c3seg.yA0) / ((c3seg.yB0 - c3seg.yA0) - (c3seg.yB1 - c3seg.yA1)) :=
  (splitAtCrossing_strict_interior c3seg).2 c3cross (by
    norm_num [splitAtCrossing, c3seg, c3cross])

/-- C4: for every segment the builder constructs, each endpoint's
dominance flag is `true` iff `a > b` strictly at that endpoint, and
equal values yield `false` (B dominant). -/
theorem mkSeg_dominance (sx sy : ℚ → Option ℚ) (p0 p1 : ConnectedPoint) (s : Seg)
    (h : mkSeg sx sy p0 p1 = some s) :
    (s.above0 = true ↔ p0.a > p0.b) ∧ (p0.a = p0.b → s.above0 = false) ∧
    (s.above1 = true ↔ p1.a > p1.b) ∧ (p1.a = p1.b → s.above1 = false) := by
  unfold mkSeg at h
  split at h
  · cases h
    refine ⟨by simp, fun he => by simp [he], by simp, fun he => by simp [he]⟩
  · exact absurd h (by simp)

/-- The two connected points and segment used to witness C4. -/
def c4p0 : ConnectedPoint := ⟨0, 1, 1⟩

/-- Second C4 witness point. -/
def c4p1 : ConnectedPoint := ⟨1, 2, 1⟩

/-- The segment `mkSeg` builds from the two C4 witness points under
identity scales. -/
def c4seg : Seg := ⟨0, 1, 1, 2, 1, 1, false, true⟩

/-- C4 witness: at a tie (a = b = 1) the flag is false; at a > b it is
true. -/
theorem mkSeg_dominance_witness :
    (c4seg.above0 = true ↔ c4p0.a > c4p0.b) ∧ (c4p0.a = c4p0.b → c4seg.above0 = false) ∧
    (c4seg.above1 = true ↔ c4p1.a > c4p1.b) ∧ (c4p1.a = c4p1.b → c4seg.above1 = false) :=
  mkSeg_dominance (fun t => some t) (fun v => some v) c4p0 c4p1 c4seg (by decide)

/-- C5: under the Interpolate policy of the `src/App.tsx` variant, a
raw value present at index i is returned unchanged — interpolation is
never applied at an anchor. -/
theorem resolveA_identity_at_anchor (xs aVals : List (Option ℚ)) (i : ℕ) (v : ℚ)
    (h : aVals.get? i = some (some v)) :
    resolveA xs aVals i = some v := by
  unfold resolveA
  rw [h]

/-- C5 witness: an anchor value 5 at index 0 resolves to 5 itself. -/
theorem resolveA_identity_at_anchor_witness :
    resolveA [some 0, some 1] [some 5, none] 0 = some 5 :=
  resolveA_identity_at_anchor [some 0, some 1] [some 5, none] 0 5 rfl

/-- The `emitPoint` never emits when the resolved B value is missing. -/
theorem emitPoint_none_right (ts : ℚ) (a : Option ℚ) :
    emitPoint ts a none = none := by
  cases a <;> rfl

/-- C6: under forward-fill, while every row up to index i has no valid
raw B value, the resolved B value at i stays unresolved and no sample
is emitted at i (no leading forward-fill). -/
theorem connected_no_leading_ffill :
    ∀ (rows : List Row) (lastA : Option ℚ) (i : ℕ) (res : Resolution),
      (connectedEach lastA none rows).get? i = some res →
      (∀ j r, j ≤ i → rows.get? j = some r → r.b? = none) →
      res.bRes = none ∧ res.emitted = none := by
  intro rows
  induction rows with
  | nil =>
    intro lastA i res h _
    simp [connectedEach] at h
  | cons r rest ih =>
    intro lastA i res h hmiss
    have hb : r.b? = none := hmiss 0 r (Nat.zero_le i) rfl
    cases i with
    | zero =>
      simp only [connectedEach, hb, List.get?] at h
      injection h with h
      rw [← h]
      exact ⟨rfl, emitPoint_none_right _ _⟩
    | succ i =>
      simp only [connectedEach, hb, List.get?] at h
      exact ih _ i res h (fun j rr hj hg => hmiss (j + 1) rr (Nat.succ_le_succ hj) hg)

/-- The rows used to witness C6: B is missing at index 0 and first
valid at index 1. -/
def c6rows : List Row := [⟨0, some 1, none⟩, ⟨1, some 2, some 5⟩]

/-- C6 witness: at index 0 of `c6rows` the B series is unresolved and
no sample is emitted. -/
theorem connected_no_leading_ffill_witness :
    (⟨some 1, none, none⟩ : Resolution).bRes = none ∧
    (⟨some 1, none, none⟩ : Resolution).emitted = none :=
  connected_no_leading_ffill c6rows none 0 ⟨some 1, none, none⟩ rfl
    (by
      intro j r hj hg
      have hj0 : j = 0 := Nat.le_zero.mp hj
      subst hj0
      have h0 : some (⟨0, some 1, none⟩ : Row) = some r := hg
      injection h0 with h0
      rw [← h0])

/-- The extractor invariant for C7: every finished strip has at least
two points. -/
def stripsMin (st : ExtState) : Prop :=
  (∀ s ∈ st.above, 2 ≤ s.length) ∧ ∀ s ∈ st.below, 2 ≤ s.length

/-- The `flush` preserves the invariant: it only ever appends `current`
when it holds at least 2 points. -/
theorem stripsMin_flush {st : ExtState} (h : stripsMin st) : stripsMin (flush st) := by
  unfold flush
  split
  · exact h
  · rename_i isAb heq
    by_cases hl : st.current.length < 2
    · rw [if_pos hl]
      exact h
    · rw [if_neg hl]
      have h2 : 2 ≤ st.current.length := Nat.not_lt.mp hl
      by_cases hab : isAb = true
      · rw [if_pos hab]
        refine ⟨fun s hs => ?_, h.2⟩
        rcases List.mem_append.mp hs with h1 | h1
        · exact h.1 s h1
        · rw [List.mem_singleton.mp h1]
          exact h2
      · rw [if_neg hab]
        refine ⟨h.1, fun s hs => ?_⟩
        rcases List.mem_append.mp hs with h1 | h1
        · exact h.2 s h1
        · rw [List.mem_singleton.mp h1]
          exact h2

/-- The `pushPoint` preserves the invariant. -/
theorem stripsMin_pushPoint {st : ExtState} {isAb : Bool} {p : StripPoint}
    (h : stripsMin st) : stripsMin (pushPoint isAb p st) := by
  unfold pushPoint
  split
  · exact h
  · split
    · exact stripsMin_flush h
    · exact h

/-- One step of the extraction loop preserves the invariant. -/
theorem stripsMin_processSeg {st : ExtState} (s : Seg) (h : stripsMin st) :
    stripsMin (processSeg st s) := by
  simp only [processSeg]
  split
  · apply stripsMin_pushPoint
    split
    · exact stripsMin_pushPoint h
    · exact h
  · split
    · exact stripsMin_flush (stripsMin_pushPoint (stripsMin_pushPoint (stripsMin_flush h)))
    · apply stripsMin_pushPoint
      apply stripsMin_pushPoint
      apply stripsMin_flush
      apply stripsMin_pushPoint
      split
      · exact stripsMin_pushPoint h
      · exact h

/-- The whole fold preserves the invariant. -/
theorem stripsMin_foldl (segs : List Seg) :
    ∀ st : ExtState, stripsMin st → stripsMin (segs.foldl processSeg st) := by
  induction segs with
  | nil => exact fun st h => h
  | cons s rest ih => exact fun st h => ih _ (stripsMin_processSeg s h)

/-- C7: every strip the extractor emits, into either dominance class,
has length at least 2; and a flush whose accumulated list holds fewer
than 2 points contributes no strip to either class. -/
theorem extractStrips_minimality :
    (∀ (segs : List Seg) (strip : Strip),
        strip ∈ (extractStrips segs).1 ∨ strip ∈ (extractStrips segs).2 →
        2 ≤ strip.length) ∧
    ∀ st : ExtState, st.current.length < 2 →
      (flush st).above = st.above ∧ (flush st).below = st.below := by
  constructor
  · intro segs strip hmem
    have h0 : stripsMin initExt := ⟨by simp [initExt], by simp [initExt]⟩
    have h1 := stripsMin_flush (stripsMin_foldl segs initExt h0)
    rcases hmem with hm | hm
    · exact h1.1 strip hm
    · exact h1.2 strip hm
  · intro st hl
    unfold flush
    split
    · exact ⟨rfl, rfl⟩
    · rw [if_pos hl]
      exact ⟨rfl, rfl⟩

/-- A same-sign (below) segment used to witness C7. -/
def c7seg : Seg := ⟨0, 1, 0, 0, 1, 1, false, false⟩

/-- C7 witness: the single strip produced from `c7seg` has 2 points,
and flushing the empty initial state emits nothing. -/
theorem extractStrips_minimality_witness :
    2 ≤ ([⟨0, 1, 0⟩, ⟨1, 1, 0⟩] : Strip).length ∧
    (flush initExt).above = initExt.above ∧ (flush initExt).below = initExt.below :=
  ⟨extractStrips_minimality.1 [c7seg] [⟨0, 1, 0⟩, ⟨1, 1, 0⟩] (Or.inr (by decide)),
   extractStrips_minimality.2 initExt (by decide)⟩

/-- After any `flush` no strip is open. -/
theorem flush_resets (st : ExtState) :
    (flush st).current = [] ∧ (flush st).currentIsAbove = none := by
  unfold flush
  split
  · exact ⟨rfl, rfl⟩
  · split
    · exact ⟨rfl, rfl⟩
    · split
      · exact ⟨rfl, rfl⟩
      · exact ⟨rfl, rfl⟩

/-- C8: on a sign-change segment with no solvable crossing, the
extractor flushes the open strip exactly as accumulated (no synthetic
point), emits the segment's two endpoints as one terminal 2-point strip
tagged with the pre-transition sign, and leaves no strip open — so a
following same-sign segment starts a fresh strip at its own first
endpoint, the post-transition state. -/
theorem processSeg_break (st : ExtState) (s : Seg)
    (hsign : ¬ s.above0 = s.above1) (hnc : splitAtCrossing s = none) :
    processSeg st s =
      { above := (flush st).above ++ (if s.above0 then [[segStart s, segEnd s]] else []),
        below := (flush st).below ++ (if s.above0 then [] else [[segStart s, segEnd s]]),
        current := [], currentIsAbove := none } ∧
    ∀ s2 : Seg, s2.above0 = s2.above1 →
      processSeg (processSeg st s) s2 =
        { processSeg st s with
            current := [segStart s2, segEnd s2],
            currentIsAbove := some s2.above0 } := by
  obtain ⟨hc, ha⟩ := flush_resets st
  have hmain : processSeg st s =
      { above := (flush st).above ++ (if s.above0 then [[segStart s, segEnd s]] else []),
        below := (flush st).below ++ (if s.above0 then [] else [[segStart s, segEnd s]]),
        current := [], currentIsAbove := none } := by
    rcases hE : flush st with ⟨A, B, cur, cia⟩
    rw [hE] at hc ha
    simp only at hc ha
    subst hc ha
    rw [← hE]
    simp only [processSeg, hnc]
    rw [if_neg hsign, hE]
    cases hab : s.above0 <;> simp [pushPoint, flush, hab]
  refine ⟨hmain, fun s2 h2 => ?_⟩
  rw [hmain]
  simp [processSeg, h2, pushPoint]

/-- A parallel sign-change segment (equal separations, no crossing)
used to witness C8. -/
def c8seg : Seg := ⟨0, 1, 5, 5, 5, 5, true, false⟩

/-- A same-sign follow-up segment used to witness C8's continuation. -/
def c8seg2 : Seg := ⟨1, 2, 3, 3, 7, 7, false, false⟩

/-- C8 witness: processing `c8seg` from the empty state emits its two
endpoints as one terminal above strip and resets, and the follow-up
segment then opens a fresh strip at its own first endpoint. -/
theorem processSeg_break_witness :
    processSeg initExt c8seg =
      { above := (flush initExt).above ++
          (if c8seg.above0 then [[segStart c8seg, segEnd c8seg]] else []),
        below := (flush initExt).below ++
          (if c8seg.above0 then [] else [[segStart c8seg, segEnd c8seg]]),
        current := [], currentIsAbove := none } ∧
    processSeg (processSeg initExt c8seg) c8seg2 =
      { processSeg initExt c8seg with
          current := [segStart c8seg2, segEnd c8seg2],
          currentIsAbove := some c8seg2.above0 } :=
  ⟨(processSeg_break initExt c8seg (by decide)
      (by norm_num [splitAtCrossing, c8seg])).1,
   (processSeg_break initExt c8seg (by decide)
      (by norm_num [splitAtCrossing, c8seg])).2 c8seg2 (by decide)⟩

/-- The `contains` only depends on the membership of the list. -/
theorem contains_congr {s p : List String} (h : ∀ j, j ∈ s ↔ j ∈ p) (k : String) :
    s.contains k = p.contains k := by
  simp only [List.elem_eq_mem, decide_eq_decide]
  exact h k

/-- The `seen` set of `deduplicateWeekendData` holds exactly the
weekend keys of the rows already traversed, so the imperative filter
agrees with the declarative description `dedupSpecGo`. -/
theorem dedupGo_eq_specGo :
    ∀ (rows : List Row9) (seen prevKeys : List String),
      (∀ k, k ∈ seen ↔ k ∈ prevKeys) →
      dedupGo seen rows = dedupSpecGo prevKeys rows := by
  intro rows
  induction rows with
  | nil =>
    intro seen prev _
    rfl
  | cons r rest ih =>
    intro seen prev hinv
    simp only [dedupGo, dedupSpecGo]
    cases hw : weekendKey r with
    | none => rw [ih seen prev hinv]
    | some key =>
      dsimp only
      rw [contains_congr hinv key]
      by_cases hk : prev.contains key = true
      · rw [if_pos hk, if_pos hk]
        have hkp : key ∈ prev := by
          simp only [List.elem_eq_mem, decide_eq_true_eq] at hk
          exact hk
        refine ih seen (key :: prev) (fun k => ⟨fun hks => List.mem_cons_of_mem _ ((hinv k).mp hks), fun hkc => ?_⟩)
        rcases List.mem_cons.mp hkc with h1 | h1
        · subst h1
          exact (hinv k).mpr hkp
        · exact (hinv k).mpr h1
      · rw [if_neg hk, if_neg hk]
        rw [ih (key :: seen) (key :: prev) (fun k => by
          simp only [List.mem_cons]
          exact or_congr Iff.rfl (hinv k))]

/-- C9 (amended): `deduplicateWeekendData` drops a row exactly when its
timestamp strict-parses to a Saturday or Sunday and an earlier row of
the input carries the same weekend key — the same ISO week id and
identical stringified fields outside the exclusion set {timestampUk,
timestampUtc, counter, snapshotId}; weekday and unparseable rows are
never dropped. -/
theorem dedup_eq_weekend_spec :
    ∀ rows : List Row9, deduplicateWeekendData rows = dedupWeekendSpec rows :=
  fun rows => dedupGo_eq_specGo rows [] [] (fun _ => Iff.rfl)

/-- First weekend row of the C9 counterexample (2024-01-06 is a
Saturday). -/
def c9row1 : Row9 :=
  ⟨"2024-01-06 12:00", [("snapshotId", FVal.num 1), ("tenor", FVal.str "M1"), ("avg", FVal.num 5)]⟩

/-- Second weekend row: identical except for `snapshotId`, a
non-timestamp field. -/
def c9row2 : Row9 :=
  ⟨"2024-01-06 12:00", [("snapshotId", FVal.num 2), ("tenor", FVal.str "M1"), ("avg", FVal.num 5)]⟩

/-- C9 counterexample: the pass drops the second weekend row even
though its non-timestamp field `snapshotId` differs from the earlier
row's, because `snapshotId` (like `counter`) is excluded from the
comparison key — so "drops only rows whose non-timestamp fields are
identical to an earlier weekend row" is false as stated. -/
theorem dedup_drops_despite_differing_field :
    deduplicateWeekendData [c9row1, c9row2] = [c9row1] ∧
    c9row1.rest.lookup ("snapshotId") ≠ c9row2.rest.lookup ("snapshotId") := by
  constructor
  · rfl
  · decide

/-- Well-formedness of the combination map: its keys are pairwise
distinct and every stored row carries its own key as `timestampUk`. -/
def mapWF (m : RowMap) : Prop :=
  (m.map Prod.fst).Nodup ∧ ∀ kv ∈ m, (kv.2 : CombinedRow).timestampUk = kv.1

/-- The `setMetric` never touches `timestampUk`. -/
theorem setMetric_timestampUk (k : String) (v : ℚ) (r : CombinedRow) :
    (setMetric k v r).timestampUk = r.timestampUk := by
  unfold setMetric
  split <;> rfl

/-- The `mapUpdate` keeps the key list unchanged. -/
theorem mapUpdate_fst (m : RowMap) (ts : String) (f : CombinedRow → CombinedRow) :
    (mapUpdate m ts f).map Prod.fst = m.map Prod.fst := by
  unfold mapUpdate
  rw [List.map_map]
  exact List.map_congr_left (fun kv _ => by
    simp only [Function.comp_apply]
    split <;> rfl)

/-- The `mapUpdate` with a `timestampUk`-preserving mutation preserves
well-formedness. -/
theorem mapWF_update {m : RowMap} (h : mapWF m) (ts : String)
    {f : CombinedRow → CombinedRow} (hf : ∀ r, (f r).timestampUk = r.timestampUk) :
    mapWF (mapUpdate m ts f) := by
  constructor
  · rw [mapUpdate_fst]
    exact h.1
  · intro kv hkv
    obtain ⟨kv0, hkv0, heq⟩ := List.mem_map.mp hkv
    subst heq
    by_cases hc : (kv0.1 == ts) = true
    · simp only [hc, if_true]
      rw [hf]
      exact h.2 kv0 hkv0
    · simp only [hc, if_false]
      exact h.2 kv0 hkv0

/-- The `mapEnsure` preserves well-formedness: a fresh entry gets a fresh
key and stores it as its own `timestampUk`. -/
theorem mapWF_ensure {m : RowMap} (h : mapWF m) (ts tenor : String) :
    mapWF (mapEnsure m ts tenor) := by
  unfold mapEnsure
  by_cases hc : m.any (fun kv => kv.1 == ts) = true
  · rw [if_pos hc]
    exact h
  · rw [if_neg hc]
    constructor
    · rw [List.map_append]
      refine h.1.append (List.nodup_singleton ts) ?_
      intro a ha hb
      obtain ⟨kv, hkv, hfst⟩ := List.mem_map.mp ha
      have hb' : a = ts := by simpa using hb
      exact hc (List.any_eq_true.mpr ⟨kv, hkv, by simp [hfst, hb']⟩)
    · intro kv hkv
      rcases List.mem_append.mp hkv with h1 | h1
      · exact h.2 kv h1
      · rw [List.mem_singleton.mp h1]

/-- A guarded `setMetric` update preserves well-formedness. -/
theorem mapWF_condUpdate {m : RowMap} (h : mapWF m) (cond : Prop) [Decidable cond]
    (ts k : String) (v : ℚ) :
    mapWF (if cond then mapUpdate m ts (setMetric k v) else m) := by
  split
  · exact mapWF_update h ts (setMetric_timestampUk k v)
  · exact h

/-- One cost reading preserves well-formedness. -/
theorem mapWF_applyCost {m : RowMap} (h : mapWF m) (rk : String) (c : CostReading) :
    mapWF (applyCost rk m c) := by
  simp only [applyCost]
  apply mapWF_condUpdate
  apply mapWF_condUpdate
  apply mapWF_condUpdate
  exact mapWF_ensure h _ _

/-- One spread reading preserves well-formedness. -/
theorem mapWF_applySpread {m : RowMap} (h : mapWF m) (rk : String) (s : SpreadReading) :
    mapWF (applySpread rk m s) := by
  simp only [applySpread]
  apply mapWF_condUpdate
  apply mapWF_condUpdate
  exact mapWF_ensure h _ _

/-- The cost fold preserves well-formedness. -/
theorem mapWF_foldCosts (rk : String) :
    ∀ (cs : List CostReading) (m : RowMap), mapWF m →
      mapWF (cs.foldl (applyCost rk) m) := by
  intro cs
  induction cs with
  | nil => exact fun m h => h
  | cons c rest ih => exact fun m h => ih _ (mapWF_applyCost h rk c)

/-- The spread fold preserves well-formedness. -/
theorem mapWF_foldSpreads (rk : String) :
    ∀ (ss : List SpreadReading) (m : RowMap), mapWF m →
      mapWF (ss.foldl (applySpread rk) m) := by
  intro ss
  induction ss with
  | nil => exact fun m h => h
  | cons s rest ih => exact fun m h => ih _ (mapWF_applySpread h rk s)

/-- The `combineRouteIntoMap` preserves well-formedness. -/
theorem mapWF_combineRoute (route : RouteData) (rk : String) {m : RowMap}
    (h : mapWF m) : mapWF (combineRouteIntoMap route rk m) :=
  mapWF_foldSpreads rk route.spreads _ (mapWF_foldCosts rk route.costs m h)

/-- The full combination map is well-formed. -/
theorem mapWF_combinedMap (route1 : RouteData) (route2 : Option RouteData) :
    mapWF (combinedMap route1 route2) := by
  have h0 : mapWF [] := ⟨List.nodup_nil, by simp⟩
  unfold combinedMap
  cases route2 with
  | none => exact mapWF_combineRoute route1 _ h0
  | some r2 => exact mapWF_combineRoute r2 _ (mapWF_combineRoute route1 _ h0)

/-- The `mapEnsure` puts its timestamp among the keys. -/
theorem mapEnsure_mem_key (m : RowMap) (ts tenor : String) :
    ts ∈ (mapEnsure m ts tenor).map Prod.fst := by
  unfold mapEnsure
  by_cases hc : m.any (fun kv => kv.1 == ts) = true
  · rw [if_pos hc]
    obtain ⟨kv, hkv, hb⟩ := List.any_eq_true.mp hc
    exact List.mem_map.mpr ⟨kv, hkv, eq_of_beq hb⟩
  · rw [if_neg hc, List.map_append]
    exact List.mem_append_right _ (by simp)

/-- The `mapEnsure` keeps every existing key. -/
theorem mapEnsure_keys_mono (m : RowMap) (ts tenor k : String)
    (h : k ∈ m.map Prod.fst) : k ∈ (mapEnsure m ts tenor).map Prod.fst := by
  unfold mapEnsure
  split
  · exact h
  · rw [List.map_append]
    exact List.mem_append_left _ h

/-- A guarded `mapUpdate` keeps the key list unchanged. -/
theorem condUpdate_fst (m : RowMap) (cond : Prop) [Decidable cond] (ts : String)
    (f : CombinedRow → CombinedRow) :
    (if cond then mapUpdate m ts f else m).map Prod.fst = m.map Prod.fst := by
  split
  · exact mapUpdate_fst m ts f
  · rfl

/-- The `applyCost` changes the key list exactly as its `ensure` does. -/
theorem applyCost_fst (rk : String) (m : RowMap) (c : CostReading) :
    (applyCost rk m c).map Prod.fst
      = (mapEnsure m c.timestampUk c.tenor).map Prod.fst := by
  simp only [applyCost]
  rw [condUpdate_fst, condUpdate_fst, condUpdate_fst]

/-- The `applySpread` changes the key list exactly as its `ensure` does. -/
theorem applySpread_fst (rk : String) (m : RowMap) (s : SpreadReading) :
    (applySpread rk m s).map Prod.fst
      = (mapEnsure m s.timestampUk s.tenor).map Prod.fst := by
  simp only [applySpread]
  rw [condUpdate_fst, condUpdate_fst]

/-- The cost fold keeps every existing key. -/
theorem foldCosts_keys_mono (rk : String) :
    ∀ (cs : List CostReading) (m : RowMap) (k : String),
      k ∈ m.map Prod.fst → k ∈ (cs.foldl (applyCost rk) m).map Prod.fst := by
  intro cs
  induction cs with
  | nil => exact fun m k h => h
  | cons c rest ih =>
    intro m k h
    exact ih _ k (by rw [applyCost_fst]; exact mapEnsure_keys_mono m _ _ k h)

/-- The spread fold keeps every existing key. -/
theorem foldSpreads_keys_mono (rk : String) :
    ∀ (ss : List SpreadReading) (m : RowMap) (k : String),
      k ∈ m.map Prod.fst → k ∈ (ss.foldl (applySpread rk) m).map Prod.fst := by
  intro ss
  induction ss with
  | nil => exact fun m k h => h
  | cons s rest ih =>
    intro m k h
    exact ih _ k (by rw [applySpread_fst]; exact mapEnsure_keys_mono m _ _ k h)

/-- After the cost fold, every processed reading's timestamp is a key. -/
theorem foldCosts_mem (rk : String) :
    ∀ (cs : List CostReading) (m : RowMap) (c : CostReading), c ∈ cs →
      c.timestampUk ∈ (cs.foldl (applyCost rk) m).map Prod.fst := by
  intro cs
  induction cs with
  | nil =>
    intro m c hc
    exact absurd hc (List.not_mem_nil c)
  | cons c0 rest ih =>
    intro m c hc
    rcases List.mem_cons.mp hc with h1 | h1
    · subst h1
      refine foldCosts_keys_mono rk rest _ _ ?_
      rw [applyCost_fst]
      exact mapEnsure_mem_key m _ _
    · exact ih _ c h1

/-- After the spread fold, every processed reading's timestamp is a key. -/
theorem foldSpreads_mem (rk : String) :
    ∀ (ss : List SpreadReading) (m : RowMap) (s : SpreadReading), s ∈ ss →
      s.timestampUk ∈ (ss.foldl (applySpread rk) m).map Prod.fst := by
  intro ss
  induction ss with
  | nil =>
    intro m s hs
    exact absurd hs (List.not_mem_nil s)
  | cons s0 rest ih =>
    intro m s hs
    rcases List.mem_cons.mp hs with h1 | h1
    · subst h1
      refine foldSpreads_keys_mono rk rest _ _ ?_
      rw [applySpread_fst]
      exact mapEnsure_mem_key m _ _
    · exact ih _ s h1

/-- The `combineRouteIntoMap` keeps every existing key. -/
theorem combineRoute_keys_mono (route : RouteData) (rk : String) (m : RowMap)
    (k : String) (h : k ∈ m.map Prod.fst) :
    k ∈ (combineRouteIntoMap route rk m).map Prod.fst :=
  foldSpreads_keys_mono rk route.spreads _ k (foldCosts_keys_mono rk route.costs m k h)

/-- Every reading of a combined route has its timestamp among the keys. -/
theorem combineRoute_mem (route : RouteData) (rk : String) (m : RowMap) :
    (∀ c ∈ route.costs, c.timestampUk ∈ (combineRouteIntoMap route rk m).map Prod.fst) ∧
    ∀ s ∈ route.spreads, s.timestampUk ∈ (combineRouteIntoMap route rk m).map Prod.fst :=
  ⟨fun c hc => foldSpreads_keys_mono rk route.spreads _ _
      (foldCosts_mem rk route.costs m c hc),
   fun s hs => foldSpreads_mem rk route.spreads _ s hs⟩

/-- The sorted output lists exactly the same timestamps as the map's
keys (as a permutation through well-formedness). -/
theorem combineTwoRoutes_ts_mem (valueOf : String → ℚ) (route1 : RouteData)
    (route2 : Option RouteData) (k : String)
    (h : k ∈ (combinedMap route1 route2).map Prod.fst) :
    k ∈ (combineTwoRoutes valueOf route1 route2).map CombinedRow.timestampUk := by
  have hwf := mapWF_combinedMap route1 route2
  have hmap : ((combinedMap route1 route2).map Prod.snd).map CombinedRow.timestampUk
      = (combinedMap route1 route2).map Prod.fst := by
    rw [List.map_map]
    exact List.map_congr_left (fun kv hkv => hwf.2 kv hkv)
  have hperm := (List.mergeSort_perm ((combinedMap route1 route2).map Prod.snd)
    (fun a b => decide (valueOf a.timestampUk ≤ valueOf b.timestampUk))).map
    CombinedRow.timestampUk
  unfold combineTwoRoutes
  rw [hperm.mem_iff, hmap]
  exact h

/-- C10: `combineTwoRoutes` returns rows with pairwise distinct
`timestampUk` keys (so all readings sharing a timestamp land in the one
row for that timestamp, whose key every reading's timestamp is), sorted
ascending by the numeric timestamp value. -/
theorem combineTwoRoutes_distinct_sorted (valueOf : String → ℚ)
    (route1 : RouteData) (route2 : Option RouteData) :
    ((combineTwoRoutes valueOf route1 route2).map CombinedRow.timestampUk).Nodup ∧
    (combineTwoRoutes valueOf route1 route2).Pairwise
      (fun a b => valueOf a.timestampUk ≤ valueOf b.timestampUk) ∧
    (∀ c ∈ route1.costs,
      c.timestampUk ∈ (combineTwoRoutes valueOf route1 route2).map CombinedRow.timestampUk) ∧
    (∀ s ∈ route1.spreads,
      s.timestampUk ∈ (combineTwoRoutes valueOf route1 route2).map CombinedRow.timestampUk) ∧
    ∀ r2, route2 = some r2 →
      (∀ c ∈ r2.costs,
        c.timestampUk ∈ (combineTwoRoutes valueOf route1 route2).map CombinedRow.timestampUk) ∧
      ∀ s ∈ r2.spreads,
        s.timestampUk ∈ (combineTwoRoutes valueOf route1 route2).map CombinedRow.timestampUk := by
  have hwf := mapWF_combinedMap route1 route2
  have hmap : ((combinedMap route1 route2).map Prod.snd).map CombinedRow.timestampUk
      = (combinedMap route1 route2).map Prod.fst := by
    rw [List.map_map]
    exact List.map_congr_left (fun kv hkv => hwf.2 kv hkv)
  refine ⟨?_, ?_, ?_, ?_, ?_⟩
  · have hperm := (List.mergeSort_perm ((combinedMap route1 route2).map Prod.snd)
      (fun a b => decide (valueOf a.timestampUk ≤ valueOf b.timestampUk))).map
      CombinedRow.timestampUk
    unfold combineTwoRoutes
    rw [hperm.nodup_iff, hmap]
    exact hwf.1
  · have hp := @List.sorted_mergeSort CombinedRow
      (fun a b => decide (valueOf a.timestampUk ≤ valueOf b.timestampUk))
      (fun a b c hab hbc => decide_eq_true
        (le_trans (of_decide_eq_true hab) (of_decide_eq_true hbc)))
      (fun a b => by
        rcases le_total (valueOf a.timestampUk) (valueOf b.timestampUk) with h | h <;>
          simp [h])
      ((combinedMap route1 route2).map Prod.snd)
    exact hp.imp (fun hab => of_decide_eq_true hab)
  · intro c hc
    refine combineTwoRoutes_ts_mem valueOf route1 route2 _ ?_
    cases hr2 : route2 with
    | none =>
      simp only [combinedMap]
      exact (combineRoute_mem route1 _ _).1 c hc
    | some r2 =>
      simp only [combinedMap]
      exact combineRoute_keys_mono r2 _ _ _ ((combineRoute_mem route1 _ _).1 c hc)
  · intro s hs
    refine combineTwoRoutes_ts_mem valueOf route1 route2 _ ?_
    cases hr2 : route2 with
    | none =>
      simp only [combinedMap]
      exact (combineRoute_mem route1 _ _).2 s hs
    | some r2 =>
      simp only [combinedMap]
      exact combineRoute_keys_mono r2 _ _ _ ((combineRoute_mem route1 _ _).2 s hs)
  · intro r2 hr2
    subst hr2
    exact ⟨fun c hc => combineTwoRoutes_ts_mem valueOf route1 _ _
        ((combineRoute_mem r2 _ _).1 c hc),
      fun s hs => combineTwoRoutes_ts_mem valueOf route1 _ _
        ((combineRoute_mem r2 _ _).2 s hs)⟩

/-- A constant numeric timestamp projection for the C10 witness. -/
def c10vf : String → ℚ := fun _ => 0

/-- Concrete route-1 cost reading for the C10 witness. -/
def c10c1 : CostReading := ⟨"2024-01-01 10:00", "M1", "All", 1⟩

/-- Concrete route-1 spread reading. -/
def c10s1 : SpreadReading := ⟨"2024-01-02 10:00", "M1", "acp", 2⟩

/-- Concrete route-2 cost reading. -/
def c10c2 : CostReading := ⟨"2024-01-03 10:00", "M1", "Fixed", 3⟩

/-- Concrete route-2 spread reading. -/
def c10s2 : SpreadReading := ⟨"2024-01-04 10:00", "M1", "trayport", 4⟩

/-- Concrete route 1. -/
def c10r1 : RouteData := ⟨[c10c1], [c10s1]⟩

/-- Concrete route 2. -/
def c10r2 : RouteData := ⟨[c10c2], [c10s2]⟩

/-- C10 witness: on the concrete two-route input, the combined output
has pairwise distinct, sorted keys and holds every reading's
timestamp. -/
theorem combineTwoRoutes_distinct_sorted_witness :
    ((combineTwoRoutes c10vf c10r1 (some c10r2)).map CombinedRow.timestampUk).Nodup ∧
    (combineTwoRoutes c10vf c10r1 (some c10r2)).Pairwise
      (fun a b => c10vf a.timestampUk ≤ c10vf b.timestampUk) ∧
    c10c1.timestampUk ∈
      (combineTwoRoutes c10vf c10r1 (some c10r2)).map CombinedRow.timestampUk ∧
    c10s1.timestampUk ∈
      (combineTwoRoutes c10vf c10r1 (some c10r2)).map CombinedRow.timestampUk ∧
    c10c2.timestampUk ∈
      (combineTwoRoutes c10vf c10r1 (some c10r2)).map CombinedRow.timestampUk ∧
    c10s2.timestampUk ∈
      (combineTwoRoutes c10vf c10r1 (some c10r2)).map CombinedRow.timestampUk := by
  have T := combineTwoRoutes_distinct_sorted c10vf c10r1 (some c10r2)
  exact ⟨T.1, T.2.1,
    T.2.2.1 c10c1 (by simp [c10r1]),
    T.2.2.2.1 c10s1 (by simp [c10r1]),
    (T.2.2.2.2 c10r2 rfl).1 c10c2 (by simp [c10r2]),
    (T.2.2.2.2 c10r2 rfl).2 c10s2 (by simp [c10r2])⟩

end RouteChart
